import Mathlib

/-!
# Verification of the prestoplot grammar/rendering engine

Shallow embedding of the core of the `prestoplot` repository
(`src/prestoplot/{seeds,texts,markov,db,grammars,contexts,story}.py`)
together with proofs settling the frozen claims about it.

Modelling conventions:
* Python strings are Lean `String`s (the Markov component, which slices
  strings character by character, is modelled over `List Char`).
* Python exceptions are modelled with `Except PyErr`.
* Python's `random.Random(seed_string)` is an arbitrary but fixed
  deterministic function of the seed string; it is modelled by `seededDraw`,
  a concrete hash-style mixing function.  Only its determinism is ever used.
* The process-global `random` module (used when no seed is supplied) is
  modelled by an explicit ambient stream `amb : Nat → Nat` threaded through
  the evaluator; determinism claims quantify over it.
-/

namespace Presto

/-- Python exceptions relevant to the modelled code paths. -/
inductive PyErr where
  | valueError
  | indexError
  | keyError (k : String)
  | nameError (n : String)
  | attributeError (a : String)
  | typeError
  | moduleNotFound (name : String)
  | badRenderStrategy (mode : String) (path : String)
  | templateSyntax
  | unmodeled (what : String)
  | outOfFuel
  deriving Repr, DecidableEq

/-- Deterministic mixing function standing in for CPython's Mersenne Twister
seeded from a string: `seededDraw s k n` models the `k`-th draw (below `n`)
of `random.Random(s)`.  Only determinism in `s` and `k` matters. -/
def seededDraw (s : String) (k n : Nat) : Nat :=
  ((s.foldl (fun a c => (a * 131 + c.toNat + 7) % 1000000007) 5381)
    + k * 2654435761) % (max n 1)

theorem seededDraw_lt (s : String) (k n : Nat) (h : 0 < n) :
    seededDraw s k n < n := by
  have : max n 1 = n := by omega
  simp only [seededDraw, this]
  exact Nat.mod_lt _ h

/-! ## texts.py: `Text`, article helpers, equality and hashing -/

/-- The vowels recognized by `Text.vowels` / `RenderedStr.vowels`. -/
def vowels : List Char := ['a', 'e', 'i', 'o', 'u']

/-- Core of `Text.an` / `RenderedStr.an`: Python
`s[0].lower() in vowels`, raising `IndexError` on an empty string. -/
def an_of (s : String) : Except PyErr String :=
  match s.toList with
  | [] => .error .indexError
  | c :: _ => .ok (if vowels.contains c.toLower then "an" else "a")

/-- Python `str.capitalize` restricted to the `"a"`/`"an"` outputs used by
`Text.An` (`self.an.capitalize()`). -/
def pyCapitalize (s : String) : String :=
  match s.toList with
  | [] => ""
  | c :: rest => String.mk (c.toUpper :: rest.map Char.toLower)

/-- The `Text` class of `texts.py`: raw value, owning grammar path, and the
`transformer` applied during `render` (`identity` by default; the repository's
tests also exercise `str.upper`).  The `context` field is omitted: the base
class `render` ignores it. -/
structure Text where
  value : String
  grammar_path : String
  transformer : String → String

/-- `Text.render` / `Text.__str__` for the base class:
`RenderedStr(self.transformer(self.value))`. -/
def Text.str (t : Text) : String := t.transformer t.value

/-- `Text.__eq__` between two `Text`s: `str(self) == other` returns
`NotImplemented` from `str.__eq__` (a `Text` is not a `str`), so Python falls
back to the reflected `other.__eq__(str(self))`, i.e. `str(other) == str(self)`:
two `Text`s compare equal iff their rendered string forms agree. -/
def Text.eq (t₁ t₂ : Text) : Bool := t₁.str == t₂.str

/-- `Text.__hash__`: `hash(self.value)` — the hash of the raw value. -/
def Text.hashv (t : Text) : UInt64 := t.value.hash

/-- `Text.an` (also aliased as `Text.a`): the article is computed from
`str(self.value)` — the raw, unrendered value. -/
def Text.an (t : Text) : Except PyErr String := an_of t.value

/-- `Text.a = Text.an` (class-level alias in the source). -/
def Text.a (t : Text) : Except PyErr String := Text.an t

/-- `Text.An` (aliased as `Text.A`): `self.an.capitalize()`. -/
def Text.An (t : Text) : Except PyErr String := (Text.an t).map pyCapitalize

/-- A `Text` with the default `identity` transformer, as produced by
`Text(value, grammar_path, context)`. -/
def mkText (v path : String) : Text := ⟨v, path, id⟩

/-- Python `str.upper` (ASCII fragment), used as a `transformer` by the
repository's own tests (`test_text_render_with_transformer`). -/
def pyUpper (s : String) : String := String.mk (s.data.map Char.toUpper)

/-- Python `str.lower` (ASCII fragment). -/
def pyLower (s : String) : String := String.mk (s.data.map Char.toLower)

/-! ## markov.py: `NameGenerator` -/

/-- The `MarkovChainDict` backing store: `defaultdict(list)` recorded as a
flat insertion-ordered list of `(key, appended suffix)` pairs. -/
def MChain := List (List Char × Char)

/-- `MarkovChainDict.__getitem__`: the list of suffixes recorded for a key
(`[]` for an absent key, as with `defaultdict(list)`), in insertion order. -/
def MChain.suffixes (m : MChain) (key : List Char) : List Char :=
  (List.filter (fun e => e.1 == key) m).map (·.2)

/-- One name's contribution in `NameGenerator.read_data`: with
`spacer = ' ' * chainlen + name`, for `num in range(len(name))` record
`spacer[num : num+chainlen] -> spacer[num+chainlen]`, then record the
terminator `spacer[len(name) : len(name)+chainlen] -> '\n'`. -/
def readName (chainlen : Nat) (name : List Char) : List (List Char × Char) :=
  let spacer := List.replicate chainlen ' ' ++ name
  (List.range name.length).map
    (fun num =>
      ((spacer.drop num).take chainlen, (spacer.drop (num + chainlen)).headD '\n'))
  ++ [((spacer.drop name.length).take chainlen, '\n')]

/-- `NameGenerator.read_data` over the whole corpus. -/
def readData (chainlen : Nat) (names : List (List Char)) : MChain :=
  names.flatMap (readName chainlen)

/-- The constructed generator: chain length and the built Markov table. -/
structure NameGen where
  chainlen : Nat
  markov : MChain

/-- `NameGenerator.__init__`.  The guard in the source is
`if 1 > chainlen > 10:` — Python chained comparison, i.e.
`1 > chainlen and chainlen > 10` — before `read_data` is run.
`chainlen` is an `Int` so that the test inputs `-1, 0, 11, 100` are all
expressible. -/
def nameGeneratorInit (source_names : List (List Char)) (chainlen : Int) :
    Except PyErr NameGen :=
  if 1 > chainlen ∧ chainlen > 10 then
    .error .valueError
  else
    .ok ⟨chainlen.toNat, readData chainlen.toNat source_names⟩

/-- Python `start[-chainlen:]` for `chainlen : Nat`: the last `chainlen`
characters — except that `-0` is `0`, so `chainlen = 0` yields the whole
string. -/
def pyTailSlice (start : List Char) (chainlen : Nat) : List Char :=
  if chainlen = 0 then start else start.drop (start.length - chainlen)

/-- The initial sampling prefix of `NameGenerator.get_random_name`:
`prefix = start[-self.chainlen:] or ' ' * self.chainlen`
(`or` takes the right operand exactly when the slice is empty). -/
def initialPrefix (start : List Char) (chainlen : Nat) : List Char :=
  let t := pyTailSlice start chainlen
  if t.isEmpty then List.replicate chainlen ' ' else t

/-! ## db.py: `ratchet` -/

/-- One invocation of the closure returned by `ratchet(items)`.  State is the
closure's `state['index']`.  At the grammar call site (`grammars.parse_value`)
the items are `RenderedStr` values — plain `str` subclasses, not `Text`
instances — so the `is_text` rendering branch never fires and items are
modelled as strings.  Empty source returns `''` without touching the index;
otherwise `items[index]` is returned and the index advances mod `len(items)`. -/
def ratcheter (items : List String) (index : Nat) : Except PyErr (String × Nat) :=
  if items.isEmpty then .ok ("", index)
  else
    match items.get? index with
    | some result => .ok (result, (index + 1) % items.length)
    | none => .error .indexError

/-- The result of the `i`-th invocation (counting from 0) of a fresh
`ratchet(items)` closure, whose index starts at 0. -/
def ratchetNth (items : List String) : Nat → Except PyErr String
  | i =>
    (go i 0).map Prod.fst
where
  /-- Run `i` invocations, returning the `i`-th result and the final index. -/
  go : Nat → Nat → Except PyErr (String × Nat)
    | 0, index => ratcheter items index
    | i + 1, index =>
      match ratcheter items index with
      | .ok (_, index') => go i index'
      | .error e => .error e

/-! ## db.py: `pick` -/

/-- Python `list.pop(idx)`: the removed element and the remaining list, or
`IndexError` when `idx` is out of range (in particular on an empty list, which
is left unchanged — `pop` mutates nothing when it raises). -/
def pyPop {α : Type} (items : List α) (idx : Nat) : Option (α × List α) :=
  match items.get? idx with
  | some x => some (x, items.eraseIdx idx)
  | none => none

/-- One invocation of the closure returned by `pick(items)` under context seed
`seed`: `idx = rng.randint(0, len(items) - 1) if len(items) > 1 else 0` with
`rng = seeds.get_rng(context['seed'])` a fresh `random.Random(seed)` (a single
draw, modelled by `seededDraw seed 0`), then `items.pop(idx)`.  The returned
`Bool` records whether the RNG was drawn from. -/
def picker {α : Type} (seed : String) (items : List α) :
    Except PyErr (α × List α × Bool) :=
  let (idx, drew) :=
    if items.length > 1 then (seededDraw seed 0 items.length, true) else (0, false)
  match pyPop items idx with
  | some (x, rest) => .ok (x, rest, drew)
  | none => .error .indexError

/-- Repeated invocation of one `pick` closure, one context seed per call:
the sequence of picked elements and the final backing list. -/
def pickRun {α : Type} : List String → List α → Except PyErr (List α × List α)
  | [], items => .ok ([], items)
  | seed :: seeds, items =>
    match picker seed items with
    | .error e => .error e
    | .ok (x, rest, _) =>
      match pickRun seeds rest with
      | .error e => .error e
      | .ok (out, final) => .ok (x :: out, final)

/-! ## db.py: `Database` (lazy resolver, per-attribute caching) -/

/-- The context fields `Database.__getattr__` manipulates. -/
structure DbCtx where
  seed : String
  key : Option String
  deriving Repr, DecidableEq

/-- The `Database` class: factory, construction context, grammar path, and the
per-instance cache created as `self.cache = {}` in `__init__`.  The factory is
the component-level model of the stored production closure: a pure function of
the context it is invoked under. -/
structure Database (V : Type) where
  factory : DbCtx → V
  context : DbCtx
  grammar_path : String
  cache : List (String × V)

/-- `Database(factory, grammar_path, context)`: each instance starts with its
own empty cache. -/
def Database.mk' {V : Type} (factory : DbCtx → V) (grammar_path : String)
    (context : DbCtx) : Database V :=
  ⟨factory, context, grammar_path, []⟩

/-- A finite stand-in for Python's `hasattr(str, attr)` test: the plain-string
method names the model recognizes. -/
def pyStrAttrs : List String := ["upper", "lower", "title", "capitalize", "strip"]

/-- `Database.__getattr__` (consulted by Python only after normal attribute
lookup fails, so the `self.__dict__[attr]` probe always raises and falls
through).  Returns the value, the updated instance, and how many times the
factory ran: a cache hit runs it 0 times; a miss runs it once — via
`getattr(str(self), attr)` (i.e. on `str(self.factory(self.context))`,
modelled by `strDelegate`) when `attr` is a string method, else under
`update_context(key=attr, seed=f'{seed}-{attr}')`, which restores the context
afterwards (`self.context` is unchanged in the result).  Both branches store
into `self.cache[attr]`. -/
def Database.getattr {V : Type} (strDelegate : String → V → V)
    (db : Database V) (attr : String) : V × Database V × Nat :=
  match (db.cache.find? (fun e => e.1 == attr)).map (·.2) with
  | some v => (v, db, 0)
  | none =>
    let result :=
      if pyStrAttrs.contains attr then
        strDelegate attr (db.factory db.context)
      else
        let seed := db.context.seed ++ "-" ++ attr
        db.factory { db.context with key := some attr, seed := seed }
    (result, { db with cache := (attr, result) :: db.cache }, 1)

/-! ## The grammar engine: raw documents (the storage contract) -/

/-- A raw YAML-equivalent value as returned by `storage.resolve_module`
(numeric scalars are not modelled: `fix_text` would raise on them
deterministically). -/
inductive Raw where
  | str (s : String)
  | bool (b : Bool)
  | list (xs : List Raw)
  | map (kvs : List (String × Raw))
  deriving Repr

/-- A raw grammar module: insertion-ordered mapping stanza name → raw value. -/
abbrev RawDoc := List (String × Raw)

/-- The storage collaborator: a finite mapping module name → raw document
(each `resolve_module` returns a fresh deep copy, per the storage contract). -/
abbrev Storage := List (String × RawDoc)

/-- First-match association-list lookup (Python dict lookup). -/
def lookupAssoc {α : Type} (l : List (String × α)) (k : String) : Option α :=
  (l.find? (fun e => e.1 == k)).map (·.2)

/-- Python dict assignment `d[k] = v`: overwrite in place if present
(preserving insertion order), else append. -/
def updateAssoc {α : Type} (l : List (String × α)) (k : String) (v : α) :
    List (String × α) :=
  if l.any (fun e => e.1 == k) then
    l.map (fun e => if e.1 == k then (k, v) else e)
  else l ++ [(k, v)]

/-- Python `d.pop(k, default)`'s removal effect. -/
def docRemove (doc : RawDoc) (k : String) : RawDoc :=
  doc.filter (fun e => !(e.1 == k))

/-- `storage.resolve_module(name)`. -/
def Storage.resolve_module (storage : Storage) (name : String) : Option RawDoc :=
  lookupAssoc storage name

/-- The single-quote character, used by Python `repr` of strings. -/
def sq : String := "\x27"

def joinComma : List String → String
  | [] => ""
  | [x] => x
  | x :: xs => x ++ ", " ++ joinComma xs

mutual
/-- Python `repr` of a raw value (string escaping not modelled). -/
def pyReprOfRaw : Raw → String
  | .str s => sq ++ s ++ sq
  | .bool b => if b then "True" else "False"
  | .list xs => "[" ++ pyReprList xs ++ "]"
  | .map kvs => "\x7b" ++ pyReprKvs kvs ++ "\x7d"

def pyReprList : List Raw → String
  | [] => ""
  | [x] => pyReprOfRaw x
  | x :: xs => pyReprOfRaw x ++ ", " ++ pyReprList xs

def pyReprKvs : List (String × Raw) → String
  | [] => ""
  | [(k, v)] => sq ++ k ++ sq ++ ": " ++ pyReprOfRaw v
  | (k, v) :: kvs => sq ++ k ++ sq ++ ": " ++ pyReprOfRaw v ++ ", " ++ pyReprKvs kvs
end

/-- Python `str` of a raw value (`RenderedStr(v)` coerces via `str`): a string
is itself; other shapes print as their repr. -/
def pyStrOfRaw (r : Raw) : String :=
  match r with
  | .str s => s
  | other => pyReprOfRaw other

/-! ## The grammar engine: text cleanup (`grammars.fix_text`) -/

def isWsOnly (cs : List Char) : Bool :=
  cs.all (fun c => c == ' ' || c == '\t')

def leadingSpaces (cs : List Char) : Nat :=
  (cs.takeWhile (fun c => c == ' ')).length

/-- `textwrap.dedent`: remove the common leading whitespace of all
non-whitespace-only lines (space-indent fragment). -/
def dedent (s : String) : String :=
  let lines := (s.splitOn "\n").map String.toList
  let margins := (lines.filter (fun l => !(isWsOnly l))).map leadingSpaces
  let margin := match margins with
    | [] => 0
    | m :: ms => ms.foldl min m
  String.intercalate "\n" (lines.map (fun l => String.mk (l.drop margin)))

/-- `grammars.fix_text`: `textwrap.dedent(text).strip()`. -/
def fix_text (s : String) : String := (dedent s).trim

/-! ## The grammar engine: live values and evaluator state -/

/-- The recognized render strategies (`grammars.parse_render_strategy`). -/
inductive RenderStrategy where
  | ftemplate
  | jinja
  deriving Repr, DecidableEq

/-- A live grammar value.  `rstr` covers plain strings and `RenderedStr`;
`text` is a `RenderableText` (its transformer is always the default identity
at engine call sites); `db` points into the evaluator's `Database` heap;
`bag`/`dlist` are `Databag`/`Datalist`; `boundMethod` is
`getattr(some_string, method)`; `intv` a Python int in the context. -/
inductive Value where
  | bool (b : Bool)
  | pyNone
  | rstr (s : String)
  | text (raw : String) (path : String) (strat : RenderStrategy)
  | db (i : Nat)
  | bag (path : String) (entries : List (String × Value))
  | dlist (path : String) (entries : List Value)
  | boundMethod (meth : String) (receiver : String)
  | intv (n : Nat)
  deriving Repr

/-- The production factory stored in a `Database` (`db.choose/pick/markovify/
ratchet`).  `pick`'s mutable backing list and `ratchet`'s mutable index live
in heap cells of the evaluator state. -/
inductive Factory where
  | choose (items : List Value)
  | pick (cell : Nat)
  | markovify (items : List String)
  | ratchet (cell : Nat) (items : List String)
  deriving Repr

/-- One `Database` instance: factory, grammar path, per-instance attr cache. -/
structure DbEntry where
  factory : Factory
  grammar_path : String
  cache : List (String × Value)
  deriving Repr

/-- The reserved evaluation keys of the shared context dict.  After
`set_seed` the seed is always a string.  `markov_chainlen`/`start_markov` are
present only when supplied as caller kwargs (`context.get` defaults apply at
the use site).  NOTE: in the source a stanza literally named `seed`/`key`
would clobber these dict entries; the model keeps stanza bindings separate
(in modern CPython the clobbered path ends in a deterministic `TypeError`
when the non-string seed reaches `random.Random`). -/
structure Ctx where
  seed : String
  key : Option String
  markov_chainlen : Option Nat
  start_markov : Option String
  deriving Repr

/-- The full evaluator state: the shared context dict (reserved keys +
stanza bindings) and the mutable heaps backing `Database` caches, `pick`
lists and `ratchet` counters.  `ambientCount` counts draws from the
process-global `random` module. -/
structure St where
  ctx : Ctx
  bindings : List (String × Value)
  dbs : Array DbEntry
  picks : Array (List Value)
  ratchets : Array Nat
  ambientCount : Nat

/-- The evaluation monad: state plus Python exceptions. -/
abbrev M (α : Type) : Type := StateT St (Except PyErr) α

/-- `seeds.get_rng`: `None` yields the process-global `random` module;
a string yields `random.Random(seed)` (the `random.Random` instance
passthrough case cannot arise in the engine flow and is not modelled). -/
inductive Rng where
  | ambient
  | seeded (s : String)
  deriving Repr, DecidableEq

def get_rng : Option String → Rng
  | none => .ambient
  | some s => .seeded s

/-- Draw `k`-th value below `n` from an RNG: a seeded RNG is a pure function
of its seed string; the ambient RNG consumes the global stream `amb`. -/
def rngDraw (amb : Nat → Nat) : Rng → Nat → Nat → M Nat
  | .ambient, _, n => do
    let st ← get
    set { st with ambientCount := st.ambientCount + 1 }
    pure (amb st.ambientCount % max n 1)
  | .seeded s, k, n => pure (seededDraw s k n)

/-! ## The grammar engine: f-template scanning (`texts.render_ftemplate`)

The source evaluates the stanza text as a Python f-string against the
context.  The model recognizes the fragment actually used by grammars:
literal text, `\x7b\x7b`/`\x7d\x7d` escapes, and `\x7bname.attr.meth()\x7d`
expression spans (identifier chains with optional trailing call parens;
format specs, subscripts and general expressions are outside the model). -/

inductive ChainElem where
  | attr (name : String)
  | call (name : String)
  deriving Repr

inductive Seg where
  | lit (s : String)
  | expr (head : String) (chain : List ChainElem)
  deriving Repr

def lbrace : Char := Char.ofNat 123

def rbrace : Char := Char.ofNat 125

/-- Split an expression span on `.` into identifier components. -/
def splitOnDot (cs : List Char) : List (List Char) :=
  cs.foldr
    (fun c acc =>
      if c = '.' then [] :: acc
      else
        match acc with
        | [] => [[c]]
        | g :: gs => (c :: g) :: gs)
    [[]]

/-- One chain component: a trailing `()` marks a call. -/
def chainItemOf (cs : List Char) : ChainElem :=
  let t := (String.mk cs).trim
  if t.endsWith "()" then .call (t.dropRight 2) else .attr t

def mkExpr (cs : List Char) : Seg :=
  match splitOnDot cs with
  | [] => .expr "" []
  | h :: t => .expr (String.mk h).trim (t.map chainItemOf)

/-- Scan an f-template into segments.  A lone closing brace or an unclosed
expression span is a (deterministic) syntax error, as for a Python f-string. -/
def scanFT : List Char → Option (List Char) → List Seg → Except PyErr (List Seg)
  | [], none, segs => .ok segs.reverse
  | [], some _, _ => .error .templateSyntax
  | c :: rest, none, segs =>
    if c = lbrace then
      match rest with
      | c2 :: rest2 =>
        if c2 = lbrace then scanFT rest2 none (.lit (String.mk [lbrace]) :: segs)
        else scanFT (c2 :: rest2) (some []) segs
      | [] => scanFT [] (some []) segs
    else if c = rbrace then
      match rest with
      | c2 :: rest2 =>
        if c2 = rbrace then scanFT rest2 none (.lit (String.mk [rbrace]) :: segs)
        else .error .templateSyntax
      | [] => .error .templateSyntax
    else scanFT rest none (.lit (String.mk [c]) :: segs)
  | c :: rest, some acc, segs =>
    if c = rbrace then scanFT rest none (mkExpr acc.reverse :: segs)
    else scanFT rest (some (c :: acc)) segs
termination_by cs _ _ => cs.length

/-- Python `str.title` (ASCII fragment). -/
def pyTitle (s : String) : String :=
  String.mk (go false s.data)
where
  go : Bool → List Char → List Char
    | _, [] => []
    | prevAlpha, c :: rest =>
      (if c.isAlpha then (if prevAlpha then c.toLower else c.toUpper) else c)
        :: go c.isAlpha rest

/-- The str methods the model implements when a cached bound method is
called (`\x7bName.upper()\x7d` and friends). -/
def applyStrMethod (meth receiver : String) : Option String :=
  if meth = "upper" then some (pyUpper receiver)
  else if meth = "lower" then some (pyLower receiver)
  else if meth = "title" then some (pyTitle receiver)
  else if meth = "capitalize" then some (pyCapitalize receiver)
  else if meth = "strip" then some receiver.trim
  else none

/-- Real (pre-`__getattr__`) instance attributes of `Database`. -/
def dbInstanceAttrs : List String := ["factory", "context", "grammar_path", "cache"]

/-- dict-level attributes resolved before `Databag.__getattr__`. -/
def dictAttrs : List String :=
  ["keys", "items", "values", "get", "context", "grammar_path"]

/-- Real instance/class attributes of `Text`/`RenderableText` other than the
article helpers. -/
def textInstanceAttrs : List String :=
  ["value", "context", "grammar_path", "transformer", "render"]

/-! ## The grammar engine: parsing (`grammars.py`) -/

/-- Allocate a fresh `Database` (its `__init__` makes an empty cache). -/
def allocDb (st : St) (f : Factory) (path : String) : Value × St :=
  (.db st.dbs.size, { st with dbs := st.dbs.push ⟨f, path, []⟩ })

def allocPick (st : St) (items : List Value) : Nat × St :=
  (st.picks.size, { st with picks := st.picks.push items })

def allocRatchet (st : St) : Nat × St :=
  (st.ratchets.size, { st with ratchets := st.ratchets.push 0 })

def stSetBinding (st : St) (k : String) (v : Value) : St :=
  { st with bindings := updateAssoc st.bindings k v }

/-- The mode string of a popped `\x7bmode: ...\x7d` marker; a non-string mode
value matches none of the string comparisons in `parse_value`. -/
def modeName : Raw → Option String
  | .str m => some m
  | _ => none

mutual
/-- `grammars.parse_value`: dispatch on the raw value's shape.  For lists the
leading single-entry `mode` marker is popped (`get_list_setting`, inlined
here), defaulting to `reuse`.  `parse_value` allocates containers but never
raises, which its state-passing type makes manifest. -/
def parse_value (strat : RenderStrategy) (grammar_path : String) :
    Raw → St → Value × St
  | .list xs, st =>
    (match xs with
     | .map [(k, v)] :: rest =>
       if k = "mode" then parse_list_mode strat grammar_path (modeName v) rest st
       else parse_list_mode strat grammar_path (some "reuse")
         (.map [(k, v)] :: rest) st
     | other => parse_list_mode strat grammar_path (some "reuse") other st)
  | .map kvs, st =>
    let (entries, st') := parse_bag strat grammar_path kvs st
    (.bag grammar_path entries, st')
  | .bool b, st => (.bool b, st)
  | .str s, st => (.text (fix_text s) grammar_path strat, st)

/-- The per-mode construction of `parse_value`'s list case.  `markov`,
`ratchet` and `list` coerce their raw items through `RenderedStr(v)`
(`pyStrOfRaw`); an unknown or non-string mode falls through every branch and
the source returns `None`. -/
def parse_list_mode (strat : RenderStrategy) (grammar_path : String) :
    Option String → List Raw → St → Value × St
  | some "reuse", value, st =>
    let (vs, st') := parse_values strat grammar_path value st
    allocDb st' (.choose vs) grammar_path
  | some "pick", value, st =>
    let (vs, st') := parse_values strat grammar_path value st
    let (cell, st'') := allocPick st' vs
    allocDb st'' (.pick cell) grammar_path
  | some "markov", value, st =>
    allocDb st (.markovify (value.map pyStrOfRaw)) grammar_path
  | some "ratchet", value, st =>
    let (cell, st') := allocRatchet st
    allocDb st' (.ratchet cell (value.map pyStrOfRaw)) grammar_path
  | some "list", value, st =>
    (.dlist grammar_path (value.map (fun v => .rstr (pyStrOfRaw v))), st)
  | _, _, st => (.pyNone, st)

def parse_values (strat : RenderStrategy) (grammar_path : String) :
    List Raw → St → List Value × St
  | [], st => ([], st)
  | r :: rs, st =>
    let (v, st') := parse_value strat grammar_path r st
    let (vs, st'') := parse_values strat grammar_path rs st'
    (v :: vs, st'')

def parse_bag (strat : RenderStrategy) (grammar_path : String) :
    List (String × Raw) → St → List (String × Value) × St
  | [], st => ([], st)
  | (k, r) :: rs, st =>
    let (v, st') := parse_value strat grammar_path r st
    let (vs, st'') := parse_bag strat grammar_path rs st'
    ((k, v) :: vs, st'')
end

/-- `grammars.parse_data`: bind each remaining stanza under path
`grammar_path:key` into the shared context. -/
def parse_data (strat : RenderStrategy) (grammar_path : String) :
    RawDoc → St → St
  | [], st => st
  | (key, v) :: rest, st =>
    let (val, st') := parse_value strat (grammar_path ++ ":" ++ key) v st
    parse_data strat grammar_path rest (stSetBinding st' key val)

/-- `grammars.parse_render_strategy`: `ftemplate` (default) or
`jinja2`/`jinja`; anything else is a hard `ValueError` at parse time. -/
def parse_render_strategy (mode : Option Raw) (grammar_path : String) :
    Except PyErr RenderStrategy :=
  match mode with
  | none => .ok .ftemplate
  | some (.str m) =>
    if m = "ftemplate" then .ok .ftemplate
    else if m = "jinja2" ∨ m = "jinja" then .ok .jinja
    else .error (.badRenderStrategy m grammar_path)
  | some r => .error (.badRenderStrategy (pyReprOfRaw r) grammar_path)

/-- The entries iterated by `parse_includes` from `doc.pop('include', ())`:
a list yields its elements, a string yields its characters, a dict its keys,
and a bool is not iterable (`TypeError`). -/
def includeEntries : Option Raw → Except PyErr (List Raw)
  | none => .ok []
  | some (.list xs) => .ok xs
  | some (.str s) => .ok (s.data.map (fun c => .str (String.mk [c])))
  | some (.map kvs) => .ok (kvs.map (fun e => .str e.1))
  | some (.bool _) => .error .typeError

mutual
/-- `grammars.parse_grammar_file` with an explicit recursion-depth fuel (the
source recursion is bounded by the include-cycle guard; `outOfFuel` is a
model-only error shown unreachable for sufficient fuel).  `included = none`
initializes the in-progress set to the singleton; a module already in the
set short-circuits, returning the context (state) unchanged. -/
def parse_grammar_file (storage : Storage) :
    Nat → String → Option (List String) → St → Except PyErr (List String × St)
  | 0, _, _, _ => .error .outOfFuel
  | fuel + 1, grammar_path, none, st =>
    parseModule storage fuel grammar_path [grammar_path] st
  | fuel + 1, grammar_path, some included, st =>
    if grammar_path ∈ included then .ok (included, st)
    else parseModule storage fuel grammar_path (grammar_path :: included) st
termination_by fuel _ _ _ => (fuel, 0, 0)

/-- The body of `parse_grammar_file` after the cycle guard: resolve the
module, pop and parse the includes (each mutating the shared `included` set),
pop and validate the render strategy, then parse the remaining stanzas. -/
def parseModule (storage : Storage) :
    Nat → String → List String → St → Except PyErr (List String × St)
  | fuel, grammar_path, included, st =>
    match Storage.resolve_module storage grammar_path with
    | none => .error (.moduleNotFound grammar_path)
    | some doc =>
      match includeEntries (lookupAssoc doc "include") with
      | .error e => .error e
      | .ok incs =>
        match parse_includes storage fuel incs included st with
        | .error e => .error e
        | .ok (included', st') =>
          match parse_render_strategy (lookupAssoc doc "render") grammar_path with
          | .error e => .error e
          | .ok strat =>
            let doc1 := docRemove (docRemove doc "include") "render"
            .ok (included', parse_data strat grammar_path doc1 st')
termination_by fuel _ _ _ => (fuel, 2, 0)

/-- `grammars.parse_includes`: parse each include in order against the same
running context; a non-string entry fails module resolution. -/
def parse_includes (storage : Storage) :
    Nat → List Raw → List String → St → Except PyErr (List String × St)
  | _, [], included, st => .ok (included, st)
  | fuel, .str inc :: rest, included, st =>
    match parse_grammar_file storage fuel inc (some included) st with
    | .error e => .error e
    | .ok (included', st') => parse_includes storage fuel rest included' st'
  | _, other :: _, _, _ => .error (.moduleNotFound (pyReprOfRaw other))
termination_by fuel incs _ _ => (fuel, 1, incs.length)
end

/-! ## The grammar engine: evaluation and rendering -/

/-- Lookup of a bare name in the shared context dict: stanza bindings plus
the reserved evaluation keys (see `Ctx`). -/
def ctxLookup (st : St) (name : String) : Option Value :=
  match lookupAssoc st.bindings name with
  | some v => some v
  | none =>
    if name = "seed" then some (.rstr st.ctx.seed)
    else if name = "key" then
      some (match st.ctx.key with | some k => .rstr k | none => .pyNone)
    else if name = "markov_chainlen" then st.ctx.markov_chainlen.map .intv
    else if name = "start_markov" then st.ctx.start_markov.map .rstr
    else none

/-- Store into a `Database` instance's attribute cache
(`self.cache[attr] = result`). -/
def cacheStore (i : Nat) (a : String) (w : Value) : M Unit :=
  modify fun st =>
    match st.dbs.get? i with
    | some entry => { st with dbs := st.dbs.setD i ⟨entry.factory, entry.grammar_path, (a, w) :: entry.cache⟩ }
    | none => st

/-- An evaluation request: the mutually recursive operations of the engine,
packaged so that recursion is on the fuel alone.
* `strOf v`: Python `str(v)`;
* `render tmpl path strat`: `RenderableText.render` via the module strategy;
* `segs`: assemble scanned f-template segments against the current context;
* `chain`: evaluate a template expression's attribute/call chain;
* `getattr v a`: Python attribute access on a live value;
* `callFactory i`: invoke `dbs[i]`'s production factory under the current
  context (`Database.__str__` / `__getattr__` paths);
* `markovName`: the sampling loop of `NameGenerator.get_random_name`
  (`seedStr` is `context['seed']`, always a string in the engine flow). -/
inductive Req where
  | strOf (v : Value)
  | render (tmpl : String) (path : String) (strat : RenderStrategy)
  | segs (path : String) (ss : List Seg)
  | chain (v : Value) (elems : List ChainElem)
  | getattr (v : Value) (a : String)
  | callFactory (i : Nat)
  | markovName (gen : NameGen) (seedStr : String) (pfx : List Char)
      (name : List Char) (k : Nat) (maxLength : Nat)

/-- The engine evaluator.  `amb` is the process-global RNG stream; `fuel`
bounds recursion depth (the source has no guard against self-referential
stanzas — spec §9 — so unbounded recursion is modelled as `outOfFuel`). -/
def eval (amb : Nat → Nat) : Nat → Req → M Value
  | 0, _ => throw .outOfFuel
  | n + 1, .strOf v =>
    match v with
    | .bool b => pure (.rstr (if b then "True" else "False"))
    | .pyNone => pure (.rstr "None")
    | .intv k => pure (.rstr (toString k))
    | .rstr s => pure (.rstr s)
    | .text raw path strat => eval amb n (.render raw path strat)
    | .db i => do
      let r ← eval amb n (.callFactory i)
      eval amb n (.strOf r)
    | .bag _ _ =>
      -- dict.__str__ would print nested object reprs including CPython
      -- memory addresses; outside the modelled fragment
      throw (.unmodeled "dict repr")
    | .dlist _ entries => do
      let reprs ← entries.mapM (fun e =>
        match e with
        | .rstr s => pure (sq ++ s ++ sq)
        | _ => throw (.unmodeled "list repr of non-string"))
      pure (.rstr ("[" ++ joinComma reprs ++ "]"))
    | .boundMethod _ _ => throw (.unmodeled "bound method repr")
  | n + 1, .render tmpl path strat =>
    match strat with
    | .jinja => throw (.unmodeled "jinja2 engine")
    | .ftemplate =>
      match scanFT tmpl.data none [] with
      | .error e => throw e
      | .ok ss => eval amb n (.segs path ss)
  | n + 1, .segs path ss =>
    match ss with
    | [] => pure (.rstr "")
    | .lit s :: rest => do
      let r ← eval amb n (.segs path rest)
      match r with
      | .rstr t => pure (.rstr (s ++ t))
      | _ => throw (.unmodeled "segment")
    | .expr name chain :: rest => do
      let st ← get
      match ctxLookup st name with
      | none => throw (.nameError name)
      | some v0 => do
        let v1 ← eval amb n (.chain v0 chain)
        let s1 ← eval amb n (.strOf v1)
        let r ← eval amb n (.segs path rest)
        match s1, r with
        | .rstr a, .rstr b => pure (.rstr (a ++ b))
        | _, _ => throw (.unmodeled "segment")
  | n + 1, .chain v elems =>
    match elems with
    | [] => pure v
    | .attr a :: rest => do
      let w ← eval amb n (.getattr v a)
      eval amb n (.chain w rest)
    | .call a :: rest => do
      let w ← eval amb n (.getattr v a)
      match w with
      | .boundMethod m recv =>
        match applyStrMethod m recv with
        | some s => eval amb n (.chain (.rstr s) rest)
        | none => throw (.unmodeled ("str method " ++ m))
      | _ => throw .typeError
  | n + 1, .getattr v a =>
    match v with
    | .db i => do
      -- Database.__getattr__ (instance attrs resolve before it in Python)
      let st ← get
      match st.dbs.get? i with
      | none => throw (.unmodeled "dangling database")
      | some entry =>
        if dbInstanceAttrs.contains a then throw (.unmodeled "instance attribute")
        else
          match lookupAssoc entry.cache a with
          | some w => pure w
          | none =>
            if pyStrAttrs.contains a then do
              -- getattr(str(self), attr): str(self) invokes the factory
              let sv ← eval amb n (.strOf (.db i))
              match sv with
              | .rstr s => do
                cacheStore i a (.boundMethod a s)
                pure (.boundMethod a s)
              | _ => throw (.unmodeled "str delegate")
            else do
              -- update_context(key=attr, seed=f'(seed)-(attr)'): restored
              -- only on normal exit (the generator-based context manager
              -- skips the restore when an exception propagates)
              let old := (st.ctx.key, st.ctx.seed)
              let seed' := st.ctx.seed ++ "-" ++ a
              modify fun st2 => { st2 with ctx := { st2.ctx with key := some a, seed := seed' } }
              let w ← eval amb n (.callFactory i)
              modify fun st2 => { st2 with ctx := { st2.ctx with key := old.1, seed := old.2 } }
              cacheStore i a w
              pure w
    | .bag _path entries =>
      -- Databag.__getattr__ → self[attr], rendering Text values in the
      -- currently ambient context
      if dictAttrs.contains a then throw (.unmodeled "dict attribute")
      else
        match lookupAssoc entries a with
        | none => throw (.keyError a)
        | some w =>
          match w with
          | .text raw p strat => eval amb n (.render raw p strat)
          | _ => pure w
    | .text raw _path _strat =>
      -- Text class attrs (articles from the RAW value), then __getattr__
      -- delegating str attrs to self.value
      if a = "an" ∨ a = "a" then
        match an_of raw with
        | .ok r => pure (.rstr r)
        | .error e => throw e
      else if a = "An" ∨ a = "A" then
        match an_of raw with
        | .ok r => pure (.rstr (pyCapitalize r))
        | .error e => throw e
      else if textInstanceAttrs.contains a then throw (.unmodeled "instance attribute")
      else if pyStrAttrs.contains a then pure (.boundMethod a raw)
      else throw (.attributeError a)
    | .rstr s =>
      -- RenderedStr: articles from the string itself, plus str methods
      if a = "an" ∨ a = "a" then
        match an_of s with
        | .ok r => pure (.rstr r)
        | .error e => throw e
      else if a = "An" ∨ a = "A" then
        match an_of s with
        | .ok r => pure (.rstr (pyCapitalize r))
        | .error e => throw e
      else if pyStrAttrs.contains a then pure (.boundMethod a s)
      else throw (.attributeError a)
    | _ => throw (.attributeError a)
  | n + 1, .callFactory i => do
    let st ← get
    match st.dbs.get? i with
    | none => throw (.unmodeled "dangling database")
    | some entry =>
      match entry.factory with
      | .choose items =>
        -- chooser: rng = get_rng(context['seed']) (fresh), rng.choice(items)
        if items.length = 0 then throw .indexError
        else do
          let idx ← rngDraw amb (get_rng (some st.ctx.seed)) 0 items.length
          match items.get? idx with
          | none => throw .indexError
          | some r =>
            match r with
            | .text raw p strat => eval amb n (.render raw p strat)
            | _ => pure r
      | .pick cell => do
        match st.picks.get? cell with
        | none => throw (.unmodeled "dangling pick state")
        | some items =>
          match items with
          | [] => throw .indexError
          | _ => do
            let idx ←
              if items.length > 1 then
                rngDraw amb (get_rng (some st.ctx.seed)) 0 items.length
              else pure 0
            match pyPop items idx with
            | none => throw .indexError
            | some (x, rest) => do
              modify fun st2 => { st2 with picks := st2.picks.setD cell rest }
              match x with
              | .text raw p strat => eval amb n (.render raw p strat)
              | _ => pure x
      | .markovify items => do
        -- markovify: NameGenerator(items, chainlen=context.get('markov_chainlen', 2))
        -- — the broken __init__ guard raises for no chainlen — then
        -- get_random_name(start=context.get('start_markov', ''), seed=context['seed'])
        let chainlen := st.ctx.markov_chainlen.getD 2
        let gen : NameGen := ⟨chainlen, readData chainlen (items.map String.toList)⟩
        let start := (st.ctx.start_markov.getD "").toList
        eval amb n (.markovName gen st.ctx.seed
          (initialPrefix start gen.chainlen) start 0 10)
      | .ratchet cell items =>
        if items.isEmpty then pure (.rstr "")
        else
          match st.ratchets.get? cell with
          | none => throw (.unmodeled "dangling ratchet state")
          | some index =>
            match items.get? index with
            | none => throw .indexError
            | some result => do
              modify fun st2 =>
                { st2 with ratchets := st2.ratchets.setD cell ((index + 1) % items.length) }
              pure (.rstr result)
  | n + 1, .markovName gen seedStr pfx name k maxLength =>
    -- get_random_name loop: rng = get_rng(seed); sample a suffix; '-' is
    -- skipped and resampled; '\n' or len(name) == max_length terminates
    let suffixes := MChain.suffixes gen.markov pfx
    if suffixes.isEmpty then throw .indexError
    else do
      let idx ← rngDraw amb (get_rng (some seedStr)) k suffixes.length
      match suffixes.get? idx with
      | none => throw .indexError
      | some sfx =>
        if sfx = '-' then eval amb n (.markovName gen seedStr pfx name (k + 1) maxLength)
        else if sfx = '\n' ∨ name.length = maxLength then pure (.rstr (String.mk name))
        else eval amb n (.markovName gen seedStr (pfx.drop 1 ++ [sfx])
          (name ++ [sfx]) (k + 1) maxLength)

/-- `seeds.make_seed`: a fresh hex seed string drawn from the process-global
RNG (`hashlib.md5(str(rng.random()).encode()).hexdigest()`). -/
def make_seed (amb : Nat → Nat) : String := "auto-" ++ toString (amb 0)

/-- `story.render_story(storage, name, start='Begin', seed=None, **kwargs)`:
build a fresh context (`contexts.get_context` / `seeds.set_seed` — a string
seed is stored as-is, `None` draws a fresh seed string from the global RNG),
parse the module and its include closure, then stringify the start stanza
(`str(ctx[start])`, a plain dict lookup raising `KeyError` when absent). -/
def render_story (amb : Nat → Nat) (storage : Storage) (name start : String)
    (seed : Option String) (markov_chainlen : Option Nat)
    (start_markov : Option String) (fuel : Nat) : Except PyErr String :=
  let seed0 := match seed with
    | some s => s
    | none => make_seed amb
  let st0 : St := ⟨⟨seed0, none, markov_chainlen, start_markov⟩, [], #[], #[], #[], 0⟩
  match parse_grammar_file storage fuel name none st0 with
  | .error e => .error e
  | .ok (_, st1) =>
    match ctxLookup st1 start with
    | none => .error (.keyError start)
    | some v =>
      match (eval amb fuel (.strOf v)).run st1 with
      | .error e => .error e
      | .ok (.rstr s, _) => .ok s
      | .ok (_, _) => .error (.unmodeled "non-string result")

/-! ## Helper lemmas -/

/-- The evaluator never consults the ambient (process-global) RNG stream:
every RNG it constructs is `get_rng (some seed_string)`, i.e. seeded.  Hence
the evaluator is, as a function, independent of the ambient stream. -/
theorem eval_amb_irrel (amb1 amb2 : Nat → Nat) :
    ∀ fuel, eval amb1 fuel = eval amb2 fuel := by
  intro fuel
  induction fuel with
  | zero => funext req; rfl
  | succ n ih =>
    funext req
    cases req <;> simp only [eval, ih, get_rng, rngDraw]

/-- Number of storage module names not yet in the in-progress `included`
set: the measure bounding include recursion depth. -/
def missingCount (storage : Storage) (included : List String) : Nat :=
  ((storage.map Prod.fst).filter (fun n => !decide (n ∈ included))).length

theorem filter_notMem_mono (names : List String) (inc inc' : List String)
    (h : inc ⊆ inc') :
    (names.filter (fun n => !decide (n ∈ inc'))).length
      ≤ (names.filter (fun n => !decide (n ∈ inc))).length := by
  induction names with
  | nil => simp
  | cons n ns ihn =>
    simp only [List.filter_cons]
    by_cases h1 : n ∈ inc'
    · have e1 : (!decide (n ∈ inc')) = false := by simp [h1]
      by_cases h3 : n ∈ inc
      · have e2 : (!decide (n ∈ inc)) = false := by simp [h3]
        rw [e1, e2, if_neg Bool.false_ne_true, if_neg Bool.false_ne_true]
        exact ihn
      · have e2 : (!decide (n ∈ inc)) = true := by simp [h3]
        rw [e1, e2, if_neg Bool.false_ne_true, if_pos rfl]
        simp only [List.length_cons]
        omega
    · have h4 : n ∉ inc := fun hc => h1 (h hc)
      have e1 : (!decide (n ∈ inc')) = true := by simp [h1]
      have e2 : (!decide (n ∈ inc)) = true := by simp [h4]
      rw [e1, e2, if_pos rfl, if_pos rfl]
      simp only [List.length_cons]
      omega

theorem filter_notMem_strict (names : List String) (path : String)
    (inc : List String) (hn : path ∈ names) (hi : path ∉ inc) :
    (names.filter (fun n => !decide (n ∈ path :: inc))).length
      < (names.filter (fun n => !decide (n ∈ inc))).length := by
  induction names with
  | nil => cases hn
  | cons n ns ihn =>
    simp only [List.filter_cons]
    by_cases he : n = path
    · subst he
      have hmono := filter_notMem_mono ns inc (n :: inc)
        (fun x hx => List.mem_cons_of_mem n hx)
      have e1 : (!decide (n ∈ n :: inc)) = false := by simp
      have e2 : (!decide (n ∈ inc)) = true := by simp [hi]
      rw [e1, e2, if_neg Bool.false_ne_true, if_pos rfl]
      simp only [List.length_cons]
      omega
    · have hn' : path ∈ ns := by
        cases hn with
        | head => exact absurd rfl he
        | tail _ h => exact h
      by_cases h3 : n ∈ inc
      · have e1 : (!decide (n ∈ path :: inc)) = false := by
          simp [List.mem_cons, h3]
        have e2 : (!decide (n ∈ inc)) = false := by simp [h3]
        rw [e1, e2, if_neg Bool.false_ne_true, if_neg Bool.false_ne_true]
        exact ihn hn'
      · have e1 : (!decide (n ∈ path :: inc)) = true := by
          simp [List.mem_cons, he, h3]
        have e2 : (!decide (n ∈ inc)) = true := by simp [h3]
        rw [e1, e2, if_pos rfl, if_pos rfl]
        simp only [List.length_cons]
        have := ihn hn'
        omega

theorem missingCount_mono (storage : Storage) (inc inc' : List String)
    (h : inc ⊆ inc') : missingCount storage inc' ≤ missingCount storage inc :=
  filter_notMem_mono _ inc inc' h

theorem missingCount_strict (storage : Storage) (path : String)
    (inc : List String) (hn : path ∈ storage.map Prod.fst) (hi : path ∉ inc) :
    missingCount storage (path :: inc) < missingCount storage inc :=
  filter_notMem_strict _ path inc hn hi

theorem lookupAssoc_eq_none {α : Type} (l : List (String × α)) (k : String)
    (h : k ∉ l.map Prod.fst) : lookupAssoc l k = none := by
  induction l with
  | nil => rfl
  | cons e rest ih =>
    have h1 : k ≠ e.1 := by
      intro hc
      exact h (by simp [hc])
    have h2 : (e.1 == k) = false := by
      simp only [beq_eq_false_iff_ne, ne_eq]
      exact fun hc => h1 hc.symm
    have h3 : k ∉ rest.map Prod.fst := fun hc => h (by simp [hc])
    simp only [lookupAssoc, List.find?_cons, h2] at *
    exact ih h3

theorem includeEntries_error {x : Option Raw} {e : PyErr}
    (h : includeEntries x = .error e) : e = .typeError := by
  match x with
  | none => simp [includeEntries] at h
  | some (.str s) => simp [includeEntries] at h
  | some (.bool b) =>
    simp [includeEntries] at h
    exact h.symm
  | some (.list xs) => simp [includeEntries] at h
  | some (.map kvs) => simp [includeEntries] at h

theorem parse_render_strategy_error {x : Option Raw} {p : String} {e : PyErr}
    (h : parse_render_strategy x p = .error e) :
    ∃ m q, e = .badRenderStrategy m q := by
  match x with
  | none => simp [parse_render_strategy] at h
  | some (.str m) =>
    by_cases h1 : m = "ftemplate"
    · simp [parse_render_strategy, h1] at h
    · by_cases h2 : m = "jinja2" ∨ m = "jinja"
      · simp [parse_render_strategy, h1, h2] at h
      · simp [parse_render_strategy, h1, h2] at h
        exact ⟨m, p, h.symm⟩
  | some (.bool b) =>
    simp [parse_render_strategy] at h
    exact ⟨_, _, h.symm⟩
  | some (.list xs) =>
    simp [parse_render_strategy] at h
    exact ⟨_, _, h.symm⟩
  | some (.map kvs) =>
    simp [parse_render_strategy] at h
    exact ⟨_, _, h.symm⟩

/-- `parse_grammar_file` behaves for this much fuel: it never exhausts it
and it only grows the in-progress set. -/
def PGood (storage : Storage) (fuel : Nat) : Prop :=
  ∀ path inc st, missingCount storage inc < fuel →
    parse_grammar_file storage fuel path (some inc) st ≠ .error .outOfFuel
    ∧ ∀ inc' st',
        parse_grammar_file storage fuel path (some inc) st = .ok (inc', st') →
        inc ⊆ inc'

def JGood (storage : Storage) (fuel : Nat) : Prop :=
  ∀ incs inc st, missingCount storage inc < fuel →
    parse_includes storage fuel incs inc st ≠ .error .outOfFuel
    ∧ ∀ inc' st',
        parse_includes storage fuel incs inc st = .ok (inc', st') →
        inc ⊆ inc'

def MGood (storage : Storage) (fuel : Nat) : Prop :=
  ∀ path inc st, missingCount storage inc < fuel →
    parseModule storage fuel path inc st ≠ .error .outOfFuel
    ∧ ∀ inc' st',
        parseModule storage fuel path inc st = .ok (inc', st') →
        inc ⊆ inc'

theorem parse_good (storage : Storage) :
    ∀ fuel, PGood storage fuel ∧ JGood storage fuel ∧ MGood storage fuel := by
  intro fuel
  induction fuel with
  | zero =>
    refine ⟨?_, ?_, ?_⟩ <;> (intro _ _ _ h; omega)
  | succ n ih =>
    obtain ⟨_, _, ihM⟩ := ih
    have hP : PGood storage (n + 1) := by
      intro path inc st hmiss
      by_cases hmem : path ∈ inc
      · simp only [parse_grammar_file, if_pos hmem]
        refine ⟨(by intro h; simp at h), ?_⟩
        intro inc' st' h
        cases h
        exact List.Subset.refl inc
      · simp only [parse_grammar_file, if_neg hmem]
        by_cases hname : path ∈ storage.map Prod.fst
        · have hlt : missingCount storage (path :: inc) < n := by
            have := missingCount_strict storage path inc hname hmem
            omega
          have hm := ihM path (path :: inc) st hlt
          refine ⟨hm.1, ?_⟩
          intro inc' st' h
          exact fun a ha => hm.2 inc' st' h (List.mem_cons_of_mem path ha)
        · have hres : Storage.resolve_module storage path = none :=
            lookupAssoc_eq_none storage path hname
          simp only [parseModule, hres]
          exact ⟨(by intro h; simp at h), (by intro inc' st' h; simp at h)⟩
    have hJ : JGood storage (n + 1) := by
      intro incs
      induction incs with
      | nil =>
        intro inc st _
        simp only [parse_includes]
        refine ⟨(by intro h; simp at h), ?_⟩
        intro inc' st' h
        cases h
        exact List.Subset.refl inc
      | cons r rest ihr =>
        intro inc st hmiss
        match r with
        | .str s =>
          simp only [parse_includes]
          cases hrun : parse_grammar_file storage (n + 1) s (some inc) st with
          | error e =>
            have hne := (hP s inc st hmiss).1
            refine ⟨?_, (by intro inc' st' h; simp at h)⟩
            intro h
            injection h with h1
            subst h1
            exact hne hrun
          | ok p =>
            obtain ⟨inc1, st1⟩ := p
            have hsub := (hP s inc st hmiss).2 inc1 st1 hrun
            have hmiss1 : missingCount storage inc1 < n + 1 := by
              have := missingCount_mono storage inc inc1 hsub
              omega
            have hrest := ihr inc1 st1 hmiss1
            refine ⟨hrest.1, ?_⟩
            intro inc' st' h
            exact fun a ha => hrest.2 inc' st' h (hsub ha)
        | .bool b =>
          simp only [parse_includes]
          exact ⟨(by intro h; simp at h), (by intro inc' st' h; simp at h)⟩
        | .list xs =>
          simp only [parse_includes]
          exact ⟨(by intro h; simp at h), (by intro inc' st' h; simp at h)⟩
        | .map kvs =>
          simp only [parse_includes]
          exact ⟨(by intro h; simp at h), (by intro inc' st' h; simp at h)⟩
    have hM : MGood storage (n + 1) := by
      intro path inc st hmiss
      cases hres : Storage.resolve_module storage path with
      | none =>
        simp only [parseModule, hres]
        exact ⟨(by intro h; simp at h), (by intro inc' st' h; simp at h)⟩
      | some doc =>
        cases hinc : includeEntries (lookupAssoc doc "include") with
        | error e =>
          have he := includeEntries_error hinc
          subst he
          simp only [parseModule, hres, hinc]
          exact ⟨(by intro h; simp at h), (by intro inc' st' h; simp at h)⟩
        | ok incs =>
          cases hrun : parse_includes storage (n + 1) incs inc st with
          | error e =>
            have hne := (hJ incs inc st hmiss).1
            simp only [parseModule, hres, hinc, hrun]
            refine ⟨?_, (by intro inc' st' h; simp at h)⟩
            intro h
            injection h with h1
            subst h1
            exact hne hrun
          | ok p =>
            obtain ⟨inc1, st1⟩ := p
            have hsub := (hJ incs inc st hmiss).2 inc1 st1 hrun
            cases hstrat : parse_render_strategy (lookupAssoc doc "render") path with
            | error e =>
              obtain ⟨m, q, he⟩ := parse_render_strategy_error hstrat
              subst he
              simp only [parseModule, hres, hinc, hrun, hstrat]
              exact ⟨(by intro h; simp at h), (by intro inc' st' h; simp at h)⟩
            | ok strat =>
              simp only [parseModule, hres, hinc, hrun, hstrat]
              refine ⟨(by intro h; simp at h), ?_⟩
              intro inc' st' h
              injection h with h1
              rw [Prod.mk.injEq] at h1
              rw [← h1.1]
              exact hsub
    exact ⟨hP, hJ, hM⟩

theorem pyPop_eq_get {α : Type} (l : List α) (idx : Nat) (h : idx < l.length) :
    pyPop l idx = some (l.get ⟨idx, h⟩, l.eraseIdx idx) := by
  simp [pyPop, List.get?_eq_get h, List.getElem?_eq_getElem h]

theorem get_cons_eraseIdx_perm {α : Type} :
    ∀ (l : List α) (i : Nat) (h : i < l.length),
      (l.get ⟨i, h⟩ :: l.eraseIdx i).Perm l := by
  intro l
  induction l with
  | nil => intro i h; simp at h
  | cons a l ih =>
    intro i h
    match i with
    | 0 => simp [List.eraseIdx]
    | j + 1 =>
      simp only [List.get, List.eraseIdx]
      have hj : j < l.length := by simpa using h
      exact (List.Perm.swap a _ _).trans ((ih j hj).cons a)

theorem ratchetNth_go_spec (items : List String) (h : ¬ items.isEmpty) :
    ∀ (i index : Nat), index < items.length →
      ratchetNth.go items i index =
        .ok (items.getD ((index + i) % items.length) "",
             (index + i + 1) % items.length) := by
  intro i
  induction i with
  | zero =>
    intro index hidx
    have hget : items.get? index = some (items.get ⟨index, hidx⟩) :=
      List.get?_eq_get hidx
    simp [ratchetNth.go, ratcheter, h, hget, Nat.mod_eq_of_lt hidx,
      List.getD, List.getElem?_eq_getElem hidx]
  | succ i ih =>
    intro index hidx
    have hget : items.get? index = some (items.get ⟨index, hidx⟩) :=
      List.get?_eq_get hidx
    have hne : items.isEmpty = false := by simpa using h
    have hlen : 0 < items.length := by
      cases items with
      | nil => simp at hne
      | cons a l => simp
    have hidx' : (index + 1) % items.length < items.length :=
      Nat.mod_lt _ hlen
    have hrec := ih ((index + 1) % items.length) hidx'
    have h1 : ((index + 1) % items.length + i) % items.length
        = (index + (i + 1)) % items.length := by
      rw [Nat.mod_add_mod]
      congr 1
      omega
    have h2 : ((index + 1) % items.length + i + 1) % items.length
        = (index + (i + 1) + 1) % items.length := by
      rw [show (index + 1) % items.length + i + 1
            = (index + 1) % items.length + (i + 1) by omega]
      rw [Nat.mod_add_mod]
      congr 1
      omega
    simp only [ratchetNth.go, ratcheter, hne, Bool.false_eq_true, if_false,
      hget, hrec, h1, h2]

/-! ## Claim theorems for the standalone components -/

/-- C4: for every source list `items` of length `n ≥ 1`, the `i`-th invocation
(counting from 0) of the `ratchet` factory's closure returns
`items[i mod n]` for all `i ≥ 0`; for `n = 0` every invocation returns the
empty string without raising. -/
theorem ratchet_cycle_law (items : List String) (i : Nat) :
    ratchetNth items i =
      .ok (if items.length = 0 then "" else items.getD (i % items.length) "") := by
  by_cases hemp : items.isEmpty
  · have : items = [] := List.isEmpty_iff.mp hemp
    subst this
    simp only [ratchetNth, List.length_nil, if_pos rfl]
    have : ∀ j index, ratchetNth.go [] j index = .ok ("", index) := by
      intro j
      induction j with
      | zero => intro index; simp [ratchetNth.go, ratcheter]
      | succ j ih => intro index; simp [ratchetNth.go, ratcheter, ih]
    simp [this, Except.map]
  · have hlen : 0 < items.length := by
      cases items with
      | nil => simp at hemp
      | cons a l => simp
    have hspec := ratchetNth_go_spec items hemp i 0 hlen
    rw [if_neg (Nat.pos_iff_ne_zero.mp hlen)]
    simp only [ratchetNth, hspec, Except.map, Nat.zero_add]

/-- C5: picking from a list of length `n` exactly `n` times (one context seed
per call) yields a permutation of the source list and leaves the backing list
empty; moreover a single-element list resolves index 0 without drawing from
the RNG (the `drew` flag of `picker` is `false`). -/
theorem pick_exhaustion :
    (∀ (α : Type) (seeds : List String) (items : List α),
        seeds.length = items.length →
        ∃ out, pickRun seeds items = .ok (out, []) ∧ out.Perm items)
    ∧ (∀ (α : Type) (seed : String) (x : α),
        picker seed [x] = .ok (x, [], false)) := by
  constructor
  · intro α seeds
    induction seeds with
    | nil =>
      intro items h
      have : items = [] := by
        cases items with
        | nil => rfl
        | cons a l => simp at h
      subst this
      exact ⟨[], rfl, List.Perm.nil⟩
    | cons s seeds ih =>
      intro items h
      have hpos : 0 < items.length := by
        cases items with
        | nil => simp at h
        | cons a l => simp
      -- the chosen index is always in range
      have hidx : (if items.length > 1 then (seededDraw s 0 items.length, true)
          else (0, false)).1 < items.length := by
        by_cases h1 : items.length > 1
        · simp only [if_pos h1]
          exact seededDraw_lt s 0 items.length hpos
        · simp only [if_neg h1]
          exact hpos
      obtain ⟨idx, drew, hpair⟩ :
          ∃ i b, (if items.length > 1 then (seededDraw s 0 items.length, true)
            else (0, false)) = (i, b) := ⟨_, _, rfl⟩
      have hidx' : idx < items.length := by rw [hpair] at hidx; exact hidx
      have hpop := pyPop_eq_get items idx hidx'
      have hrest : (items.eraseIdx idx).length = seeds.length := by
        have := List.length_eraseIdx_of_lt hidx'
        simp at h
        omega
      obtain ⟨out, hrun, hperm⟩ := ih (items.eraseIdx idx) hrest.symm
      refine ⟨items.get ⟨idx, hidx'⟩ :: out, ?_, ?_⟩
      · simp only [pickRun, picker, hpair, hpop, hrun]
      · exact (hperm.cons _).trans (get_cons_eraseIdx_perm items idx hidx')
  · intro α seed x
    simp [picker, pyPop]

/-- Witness for C5: three picks with three seeds exhaust a 3-element list into
a permutation, and a singleton pick resolves index 0 without drawing. -/
theorem pick_exhaustion_witness :
    (∃ out, pickRun ["s1", "s2", "s3"] (["a", "b", "c"] : List String)
        = .ok (out, []) ∧ out.Perm ["a", "b", "c"])
    ∧ picker "z" (["only"] : List String) = .ok ("only", [], false) :=
  ⟨pick_exhaustion.1 String ["s1", "s2", "s3"] ["a", "b", "c"] (by decide),
   pick_exhaustion.2 String "z" "only"⟩

/-- C10 (implicit): invoking the `pick` factory's closure on an empty backing
list is unguarded — `len(items) > 1` fails, index 0 is attempted, and
`items.pop(0)` raises `IndexError`; the list is not mutated (it stays empty,
`pyPop` removes nothing when it raises). -/
theorem picker_empty_raises :
    ∀ (α : Type) (seed : String),
      picker (α := α) seed [] = .error .indexError
      ∧ pyPop (α := α) [] 0 = none := by
  intro α seed
  constructor <;> rfl

/-- C2 (code bug): the constructor guard `if 1 > chainlen > 10:` is the Python
chained comparison `1 > chainlen and chainlen > 10`, which is unsatisfiable,
so `NameGenerator.__init__` never raises `ValueError` for any `chainlen`
(including the test inputs `0, 11, -1, 100` that
`test_init_with_invalid_chainlen_raises_error` expects to raise). -/
theorem namegen_guard_never_fires (names : List (List Char)) (chainlen : Int) :
    nameGeneratorInit names chainlen
      = .ok ⟨chainlen.toNat, readData chainlen.toNat names⟩ := by
  unfold nameGeneratorInit
  rw [if_neg]
  rintro ⟨h1, h2⟩
  omega

/-- C6: `Database.__getattr__` caching — a second access of the same
attribute name returns the identical cached value with no further factory
invocation; a first access on a fresh instance runs the factory exactly once;
accessing one name does not change what a distinct name resolves to; and
instances never share cache state (each `Database.__init__` creates its own
empty `self.cache`, so a fresh instance recomputes regardless of any other
instance's history). -/
theorem database_per_attr_caching :
    (∀ (V : Type) (sd : String → V → V) (db : Database V) (attr : String),
        Database.getattr sd (Database.getattr sd db attr).2.1 attr
          = ((Database.getattr sd db attr).1,
             (Database.getattr sd db attr).2.1, 0))
    ∧ (∀ (V : Type) (sd : String → V → V) (f : DbCtx → V) (p : String)
        (c : DbCtx) (attr : String),
        (Database.mk' f p c).cache = []
        ∧ (Database.getattr sd (Database.mk' f p c) attr).2.2 = 1)
    ∧ (∀ (V : Type) (sd : String → V → V) (db : Database V) (a b : String),
        a ≠ b →
        (Database.getattr sd (Database.getattr sd db a).2.1 b).1
          = (Database.getattr sd db b).1) := by
  refine ⟨?_, ?_, ?_⟩
  · intro V sd db attr
    unfold Database.getattr
    cases hfind : (db.cache.find? (fun e => e.1 == attr)).map (·.2) with
    | some v => simp [hfind]
    | none => simp [hfind, List.find?]
  · intro V sd f p c attr
    refine ⟨rfl, ?_⟩
    unfold Database.getattr
    simp [Database.mk', List.find?]
  · intro V sd db a b hab
    have hab' : (a == b) = false := by
      simp only [beq_eq_false_iff_ne, ne_eq]
      exact hab
    unfold Database.getattr
    cases hfind : (db.cache.find? (fun e => e.1 == a)).map (·.2) with
    | some v => simp [hfind]
    | none =>
      cases hfind2 : (db.cache.find? (fun e => e.1 == b)).map (·.2) with
      | some v => simp [hfind, hfind2, List.find?, hab']
      | none => simp [hfind, hfind2, List.find?, hab']

/-- Witness for C6 at a concrete instantiation (`V = String`, a factory
returning the context seed, attributes `"x" ≠ "y"`). -/
theorem database_per_attr_caching_witness :
    (Database.getattr (fun _ v => v)
        (Database.getattr (fun _ v => v)
          (Database.mk' (fun c => c.seed) "p" ⟨"s", none⟩) "x").2.1 "x"
      = ((Database.getattr (fun _ v => v)
            (Database.mk' (fun c => c.seed) "p" ⟨"s", none⟩) "x").1,
         (Database.getattr (fun _ v => v)
            (Database.mk' (fun c => c.seed) "p" ⟨"s", none⟩) "x").2.1, 0))
    ∧ (Database.getattr (fun _ v => v)
        (Database.mk' (fun c => c.seed) "p" ⟨"s", none⟩) "x").2.2 = 1
    ∧ (Database.getattr (fun _ v => v)
        (Database.getattr (fun _ v => v)
          (Database.mk' (fun c => c.seed) "p" ⟨"s", none⟩) "x").2.1 "y").1
      = (Database.getattr (fun _ v => v)
          (Database.mk' (fun c => c.seed) "p" ⟨"s", none⟩) "y").1 :=
  ⟨database_per_attr_caching.1 String (fun _ v => v) _ "x",
   (database_per_attr_caching.2.1 String (fun _ v => v)
      (fun c => c.seed) "p" ⟨"s", none⟩ "x").2,
   database_per_attr_caching.2.2 String (fun _ v => v) _ "x" "y" (by decide)⟩

/-- C8: article selection — for a `Text` whose raw value is non-empty, `an`
is `"an"` exactly when the first character of the raw (unrendered) value is a
vowel `a/e/i/o/u` case-insensitively and `"a"` otherwise, `a` is an alias of
`an`, `An`/`A` capitalize the result; the helpers depend only on the raw
value; and an empty raw value raises an index-style error instead of
returning a default. -/
theorem text_article_selection :
    (∀ (t : Text) (c : Char) (rest : List Char),
        t.value.toList = c :: rest →
        Text.an t = .ok (if vowels.contains c.toLower then "an" else "a")
        ∧ Text.a t = Text.an t
        ∧ Text.An t = .ok (if vowels.contains c.toLower then "An" else "A"))
    ∧ (∀ t₁ t₂ : Text, t₁.value = t₂.value →
        Text.an t₁ = Text.an t₂ ∧ Text.An t₁ = Text.An t₂)
    ∧ (∀ t : Text, t.value = "" →
        Text.an t = .error .indexError ∧ Text.An t = .error .indexError) := by
  refine ⟨?_, ?_, ?_⟩
  · intro t c rest h
    have h' : t.value.data = c :: rest := h
    refine ⟨?_, rfl, ?_⟩
    · simp [Text.an, an_of, h']
    · simp only [Text.An, Text.an, an_of, String.toList, h', Except.map]
      by_cases hv : vowels.contains c.toLower
      · simp only [if_pos hv]
        rfl
      · simp only [if_neg hv]
        rfl
  · intro t₁ t₂ h
    constructor
    · simp [Text.an, h]
    · simp [Text.An, Text.an, h]
  · intro t h
    constructor
    · simp [Text.an, an_of, h]
    · simp [Text.An, Text.an, an_of, h, Except.map]

/-- Witness for C8 at the spec's own examples: `"apple"`, `"book"`, an
uppercase vowel, and the empty string. -/
theorem text_article_selection_witness :
    Text.an (mkText "apple" "p") = .ok "an"
    ∧ Text.an (mkText "book" "p") = .ok "a"
    ∧ Text.an (mkText "Apple" "p") = .ok "an"
    ∧ Text.An (mkText "Apple" "p") = .ok "An"
    ∧ Text.an (mkText "" "p") = .error .indexError := by
  refine ⟨?_, ?_, ?_, ?_, ?_⟩
  · rw [(text_article_selection.1 (mkText "apple" "p") 'a'
      "pple".toList (by decide)).1]
    exact congrArg Except.ok (by decide)
  · rw [(text_article_selection.1 (mkText "book" "p") 'b'
      "ook".toList (by decide)).1]
    exact congrArg Except.ok (by decide)
  · rw [(text_article_selection.1 (mkText "Apple" "p") 'A'
      "pple".toList (by decide)).1]
    exact congrArg Except.ok (by decide)
  · rw [(text_article_selection.1 (mkText "Apple" "p") 'A'
      "pple".toList (by decide)).2.2]
    exact congrArg Except.ok (by decide)
  · exact (text_article_selection.2.2 (mkText "" "p") rfl).1

/-- Counterexample for C3: two `Text`s wrapping the same raw string `"apple"`
but constructed with different transformers (`identity` vs `str.upper`, both
used by the repository's own tests) are NOT equal under `Text.__eq__`, so
equality is not determined solely by the raw value. -/
theorem text_eq_counterexample :
    (Text.mk "apple" "path1" id).value
        = (Text.mk "apple" "path2" pyUpper).value
    ∧ Text.eq (Text.mk "apple" "path1" id)
        (Text.mk "apple" "path2" pyUpper) = false
    ∧ Text.hashv (Text.mk "apple" "path1" id)
        = Text.hashv (Text.mk "apple" "path2" pyUpper) := by
  refine ⟨rfl, ?_, rfl⟩
  decide

/-- C3 (amended): hashing is determined solely by the raw value, but equality
compares rendered string forms (`str(self) == str(other)`); two independently
constructed `Text`s wrapping the same raw string with the same transformer —
in particular the default `identity` — are equal and hash equal regardless of
grammar path. -/
theorem text_eq_by_rendered_hash_by_raw :
    (∀ t₁ t₂ : Text, t₁.value = t₂.value → Text.hashv t₁ = Text.hashv t₂)
    ∧ (∀ t₁ t₂ : Text, Text.eq t₁ t₂ = (t₁.str == t₂.str))
    ∧ (∀ t₁ t₂ : Text, t₁.str = t₂.str → Text.eq t₁ t₂ = true)
    ∧ (∀ v p₁ p₂ : String,
        Text.eq (mkText v p₁) (mkText v p₂) = true
        ∧ Text.hashv (mkText v p₁) = Text.hashv (mkText v p₂)) := by
  refine ⟨?_, ?_, ?_, ?_⟩
  · intro t₁ t₂ h
    simp [Text.hashv, h]
  · intro t₁ t₂
    rfl
  · intro t₁ t₂ h
    simp [Text.eq, h]
  · intro v p₁ p₂
    exact ⟨by simp [Text.eq, mkText, Text.str], rfl⟩

/-- Witness for C3's amended theorem at concrete inputs. -/
theorem text_eq_by_rendered_hash_by_raw_witness :
    Text.eq (mkText "apple" "x") (mkText "apple" "y") = true
    ∧ Text.hashv (Text.mk "z" "a" id) = Text.hashv (Text.mk "z" "b" pyUpper)
    ∧ Text.eq (Text.mk "hi" "a" id) (Text.mk "HI" "b" pyLower) = true :=
  ⟨(text_eq_by_rendered_hash_by_raw.2.2.2 "apple" "x" "y").1,
   text_eq_by_rendered_hash_by_raw.1 _ _ rfl,
   text_eq_by_rendered_hash_by_raw.2.2.1 _ _ (by decide)⟩

/-- Counterexample for C9: for `start = "a"` and `chainlen = 2` the initial
sampling prefix is `"a"` itself — length 1, not left-padded to the claimed
`chainlen` characters (`" a"`). -/
theorem markov_prefix_counterexample :
    initialPrefix ['a'] 2 = ['a']
    ∧ initialPrefix ['a'] 2 ≠ [' ', 'a']
    ∧ (initialPrefix ['a'] 2).length ≠ 2 := by
  decide

/-- C9 (amended): for `chainlen ≥ 1` the initial sampling prefix of
`get_random_name` is the last `min(chainlen, len(start))` characters of
`start`, used unpadded (so a non-empty `start` shorter than `chainlen` is the
whole `start`); only an empty `start` yields the all-spaces prefix of length
`chainlen`. -/
theorem markov_prefix_amended (start : List Char) (chainlen : Nat)
    (h : 1 ≤ chainlen) :
    (start = [] → initialPrefix start chainlen = List.replicate chainlen ' ')
    ∧ (start ≠ [] →
        initialPrefix start chainlen = start.drop (start.length - chainlen)
        ∧ (initialPrefix start chainlen).length = min chainlen start.length) := by
  have hcz : chainlen ≠ 0 := by omega
  constructor
  · intro hs
    subst hs
    simp [initialPrefix, pyTailSlice, hcz]
  · intro hs
    have hlen : 0 < start.length := List.length_pos.mpr hs
    have hdlen : (start.drop (start.length - chainlen)).length
        = min chainlen start.length := by
      rw [List.length_drop]
      omega
    have hne : (start.drop (start.length - chainlen)).isEmpty = false := by
      rw [List.isEmpty_eq_false_iff_exists_mem]
      have : 0 < (start.drop (start.length - chainlen)).length := by
        rw [hdlen]; omega
      obtain ⟨x, hx⟩ := List.exists_mem_of_length_pos this
      exact ⟨x, hx⟩
    constructor
    · simp [initialPrefix, pyTailSlice, hcz, hne]
    · simp [initialPrefix, pyTailSlice, hcz, hne, hdlen]

/-- Witness for C9's amended theorem at `start = "a"`, `chainlen = 2`. -/
theorem markov_prefix_amended_witness :
    initialPrefix ['a'] 2 = (['a'] : List Char).drop (1 - 2)
    ∧ (initialPrefix ['a'] 2).length = min 2 1 :=
  (markov_prefix_amended ['a'] 2 (by decide)).2 (by decide)

/-- C1: rendering is deterministic in the seed — for every storage, module
name, start stanza, fixed seed string `s` (and caller overrides and fuel),
`render_story` yields the same result no matter what the process-global
mutable RNG stream contains: two calls with the same arguments agree, and no
hidden global randomness influences the output. -/
theorem render_story_deterministic_in_seed
    (amb1 amb2 : Nat → Nat) (storage : Storage) (name start s : String)
    (mc : Option Nat) (sm : Option String) (fuel : Nat) :
    render_story amb1 storage name start (some s) mc sm fuel
      = render_story amb2 storage name start (some s) mc sm fuel := by
  simp only [render_story, eval_amb_irrel amb1 amb2 fuel]

/-- C7: include-cycle safety of `parse_grammar_file` — re-encountering a
module already in the in-progress set returns the context (state) unchanged
without re-merging anything, and parsing terminates (never exhausts a
recursion budget of `|storage| + 2`) for every storage, including cyclic
include graphs. -/
theorem parse_grammar_file_cycle_safe :
    (∀ (storage : Storage) (fuel : Nat) (path : String)
        (included : List String) (st : St),
        path ∈ included →
        parse_grammar_file storage (fuel + 1) path (some included) st
          = .ok (included, st))
    ∧ (∀ (storage : Storage) (path : String) (st : St),
        parse_grammar_file storage (storage.length + 2) path none st
          ≠ .error .outOfFuel) := by
  constructor
  · intro storage fuel path included st hmem
    simp only [parse_grammar_file, if_pos hmem]
  · intro storage path st
    simp only [parse_grammar_file]
    have hM := (parse_good storage (storage.length + 1)).2.2
    refine (hM path [path] st ?_).1
    have hle : missingCount storage [path] ≤ storage.length := by
      calc missingCount storage [path]
          ≤ (storage.map Prod.fst).length := List.length_filter_le _ _
        _ = storage.length := List.length_map _ _
    omega

/-- Witness for C7: a module that includes itself — the short-circuit
equation at a concrete cyclic storage, and the termination bound on the same
storage (which also parses to a non-error result end to end, shown by the
deterministic render of its `Begin` stanza). -/
theorem parse_grammar_file_cycle_safe_witness :
    parse_grammar_file
        [("a", [("include", .list [.str "a"]), ("Begin", .list [.str "hi"])])]
        5 "a" (some ["a"])
        ⟨⟨"s", none, none, none⟩, [], #[], #[], #[], 0⟩
      = .ok (["a"], ⟨⟨"s", none, none, none⟩, [], #[], #[], #[], 0⟩)
    ∧ parse_grammar_file
        [("a", [("include", .list [.str "a"]), ("Begin", .list [.str "hi"])])]
        3 "a" none
        ⟨⟨"s", none, none, none⟩, [], #[], #[], #[], 0⟩
      ≠ .error .outOfFuel :=
  ⟨parse_grammar_file_cycle_safe.1
      [("a", [("include", .list [.str "a"]), ("Begin", .list [.str "hi"])])]
      4 "a" ["a"] ⟨⟨"s", none, none, none⟩, [], #[], #[], #[], 0⟩
      (by simp),
   parse_grammar_file_cycle_safe.2
      [("a", [("include", .list [.str "a"]), ("Begin", .list [.str "hi"])])]
      "a" ⟨⟨"s", none, none, none⟩, [], #[], #[], #[], 0⟩⟩

end Presto
